import Mathlib

/-!
Shallow embedding of `src/node_simulator.py` (the WMN node telemetry simulator).

Conventions of the embedding:
* Python floats are modelled as exact rationals (`ℚ`).
* Python dicts keyed by channel are modelled as association lists with
  pairwise-distinct keys (`keysNodup`), the invariant every Python dict enjoys.
* Every `random.*` call is modelled as an explicit parameter, or as one value
  taken from an indexed stream of abstract draws (`RNG`), so that all claims
  quantify over the draws.
* `math.log10` is transcendental; it enters the model as an explicit function
  parameter of the propagation model.
-/

/-- `clamp(v, lo, hi)` from the source: `max(lo, min(hi, v))`. -/
def clampQ (v lo hi : ℚ) : ℚ := max lo (min hi v)

/-- Python 3 `round(x)` to an integer: round half to even. -/
def pyRound (x : ℚ) : ℤ :=
  if x - ⌊x⌋ < 1/2 then ⌊x⌋
  else if 1/2 < x - ⌊x⌋ then ⌊x⌋ + 1
  else if ⌊x⌋ % 2 = 0 then ⌊x⌋ else ⌊x⌋ + 1

/-- Python `round(x, 2)`: round to two decimal places, half to even. -/
def round2 (x : ℚ) : ℚ := (pyRound (x * 100) : ℚ) / 100

/-- Python `int(x)` on a float (here a rational): truncation toward zero. -/
def pyTrunc (q : ℚ) : ℤ := if 0 ≤ q then ⌊q⌋ else -⌊-q⌋

/-- A Python dict from channel to float, as an association list. -/
abbrev TxMap := List (ℤ × ℚ)

/-- Dict lookup with default 0: `d.get(c, 0.0)`. -/
def txGet (m : TxMap) (c : ℤ) : ℚ :=
  match m.find? (fun p => p.1 == c) with
  | some p => p.2
  | none => 0

/-- Dict membership: `c in d`. -/
def hasKey (m : TxMap) (c : ℤ) : Bool := m.any (fun p => p.1 == c)

/-- Dict assignment `d[c] = v`. -/
def txSet (m : TxMap) (c : ℤ) (v : ℚ) : TxMap :=
  if hasKey m c then m.map (fun p => if p.1 == c then (p.1, v) else p) else m ++ [(c, v)]

/-- The dict invariant: keys are pairwise distinct. -/
def keysNodup (m : TxMap) : Prop := (m.map Prod.fst).Nodup

/-- Sum of the values a raw entry list holds under key `c` (with distinct keys
this is just the value under `c`, or 0 when absent). -/
def entrySum (es : TxMap) (c : ℤ) : ℚ :=
  ((es.filter (fun p => p.1 == c)).map Prod.snd).sum

/-- `_decay_per_channel_tx` acting on one node's map: multiply every value by
the decay factor 0.6 and drop entries that fell below 1.0. -/
def decayTx (m : TxMap) : TxMap :=
  (m.map (fun p => (p.1, p.2 * (3/5)))).filter (fun p => decide (1 ≤ p.2))

/-- `NodeState` of the simulator (timestamps omitted: they are wall-clock
strings used nowhere in the claims). -/
structure NodeState where
  node_id : String
  channel : ℤ
  pos : ℚ × ℚ
  rssi : ℤ
  snr : ℤ
  num_clients : ℤ
  txBytes : ℤ
  rxBytes : ℤ
  per_channel_tx : TxMap
  smoothed_busy : ℚ
deriving DecidableEq, Repr

instance : Inhabited NodeState :=
  ⟨{ node_id := ""
     channel := 0
     pos := (0, 0)
     rssi := 0
     snr := 0
     num_clients := 0
     txBytes := 0
     rxBytes := 0
     per_channel_tx := []
     smoothed_busy := 0 }⟩

/-- One `channel_load_raw[ch] += tx` step, guarded by `ch in channel_load_raw`. -/
def addToLoad (m : TxMap) (ch : ℤ) (tx : ℚ) : TxMap :=
  if hasKey m ch then m.map (fun p => if p.1 == ch then (p.1, p.2 + tx) else p) else m

/-- The inner loop of `_compute_channel_busy_map_and_raw` over one node's
`per_channel_tx.items()`. -/
def nodeContrib (m : TxMap) (entries : TxMap) : TxMap :=
  entries.foldl (fun acc p => addToLoad acc p.1 p.2) m

/-- The raw-load accumulation of `_compute_channel_busy_map_and_raw`, starting
from `{ch: 0.0 for ch in channels}`. -/
def buildLoadRaw (channels : List ℤ) (states : List NodeState) : TxMap :=
  states.foldl (fun acc s => nodeContrib acc s.per_channel_tx) (channels.map (fun c => (c, 0)))

/-- `max(values)` of a Python dict's values when nonempty, else the fallback 1.0
used by the source (`max(...) if channel_load_raw else 1.0`). -/
def qListMax : List ℚ → ℚ
  | [] => 1
  | v :: vs => vs.foldl max v

/-- `_compute_channel_busy_map_and_raw`: returns `(busy_map, channel_load_raw)`. -/
def compute_channel_busy_map_and_raw (channels : List ℤ) (states : List NodeState) :
    TxMap × TxMap :=
  let raw := buildLoadRaw channels states
  let maxVal := max 1 (qListMax (raw.map Prod.snd))
  (raw.map (fun p => (p.1, clampQ (round2 (p.2 / maxVal * 90)) 0 100)), raw)

/-- `_compute_local_operating_busy_for_node` (`i` is the 1-based node index). -/
def compute_local_operating_busy_for_node (states : List NodeState)
    (neighbors : List (List ℕ)) (global_busy_map : TxMap) (i : ℕ) : ℚ :=
  let node := states.getD (i - 1) default
  let ch := node.channel
  let global_busy := txGet global_busy_map ch
  let local_tx := txGet node.per_channel_tx ch
  let acc := states.foldl
    (fun (a : ℚ × ℕ) n =>
      let tx := txGet n.per_channel_tx ch
      if 0 < tx then (a.1 + tx, a.2 + 1) else a) ((0 : ℚ), (0 : ℕ))
  let avg_tx := if 0 < acc.2 then acc.1 / (acc.2 : ℚ) else 0
  let local_factor := if 0 < avg_tx then clampQ (local_tx / (avg_tx + 1) - 1) (-(1/2)) 5 else 0
  let neighbor_count :=
    ((neighbors.getD (i - 1) []).filter
      (fun j => decide (0 < txGet (states.getD (j - 1) default).per_channel_tx ch))).length
  let neighbor_factor := clampQ ((neighbor_count : ℚ) * (15/100)) 0 2
  clampQ (round2 (global_busy * (1 + (2/5) * local_factor + (3/5) * neighbor_factor))) 0 100

/-- The transmit levels of the nodes currently active on channel `ch`. -/
def activeTxs (states : List NodeState) (ch : ℤ) : List ℚ :=
  (states.map (fun n => txGet n.per_channel_tx ch)).filter (fun v => decide (0 < v))

/-- The count of spatial neighbors of node `i` currently transmitting on `ch`. -/
def activeNeighborCount (states : List NodeState) (neighbors : List (List ℕ))
    (ch : ℤ) (i : ℕ) : ℕ :=
  ((neighbors.getD (i - 1) []).filter
    (fun j => decide (0 < txGet (states.getD (j - 1) default).per_channel_tx ch))).length

/-- The local factor described by the spec: how far the node's own activity on
its operating channel exceeds the average over the active nodes, clamped to
[-0.5, 5.0], and 0 when no node is active on that channel. -/
def localFactorSpec (states : List NodeState) (i : ℕ) : ℚ :=
  let node := states.getD (i - 1) default
  let ch := node.channel
  let ts := activeTxs states ch
  if ts.length = 0 then 0
  else clampQ (txGet node.per_channel_tx ch / (ts.sum / (ts.length : ℚ) + 1) - 1) (-(1/2)) 5

/-- The neighbor factor described by the spec: 0.15 per active spatial neighbor,
clamped to [0, 2]. -/
def neighborFactorSpec (states : List NodeState) (neighbors : List (List ℕ)) (i : ℕ) : ℚ :=
  clampQ ((activeNeighborCount states neighbors (states.getD (i - 1) default).channel i : ℚ)
    * (15/100)) 0 2

/-- One entry of an `interferenceScan`. -/
structure ScanEntry where
  channel : ℤ
  rssi : ℤ
  busy : ℚ
deriving DecidableEq, Repr

/-- A telemetry sample (timestamps, radioId and sampleSource omitted: constant
strings and wall-clock values used nowhere in the claims). -/
structure Telemetry where
  nodeId : String
  channel : ℤ
  rssi : ℤ
  snr : ℤ
  txBytes : ℤ
  rxBytes : ℤ
  txRetries : ℤ
  numClients : ℤ
  channelBusyPercent : ℚ
  interferenceScan : List ScanEntry
deriving DecidableEq, Repr

/-- The random draws consumed by one `to_telemetry` call. -/
structure TelemetryDraws where
  dRssi : ℤ    -- random.randint(-2, 2)
  dSnr : ℤ     -- random.randint(-2, 2)
  dCli : ℤ     -- random.randint(-1, 1)
  gTx : ℚ      -- random.gauss(50000, 50000)
  gRx : ℚ      -- random.gauss(50000, 50000)
  retries : ℤ  -- random.randint(0, 200)
deriving Repr

/-- `NodeState.to_telemetry`: returns the mutated node state and the sample. -/
def to_telemetry (st : NodeState) (local_operating_busy : ℚ)
    (interference_scan : List ScanEntry) (burst_factor : ℚ) (d : TelemetryDraws) :
    NodeState × Telemetry :=
  let rssi1 := max (-95) (min (-30) (st.rssi + d.dRssi))
  let snr1 := max 0 (min 60 (st.snr + d.dSnr))
  let cli1 := max 0 (st.num_clients + d.dCli)
  let base_tx := max 0 (pyTrunc d.gTx)
  let tx := pyTrunc ((base_tx : ℚ) * burst_factor)
  let rx := pyTrunc (max 0 d.gRx * burst_factor)
  let ptx := txSet st.per_channel_tx st.channel (txGet st.per_channel_tx st.channel + (tx : ℚ))
  let sm := (2/5) * local_operating_busy + (3/5) * st.smoothed_busy
  let busy := clampQ (round2 sm) 0 100
  ({ st with
      rssi := rssi1
      snr := snr1
      num_clients := cli1
      txBytes := tx
      rxBytes := rx
      per_channel_tx := ptx
      smoothed_busy := sm },
   { nodeId := st.node_id
     channel := st.channel
     rssi := rssi1
     snr := snr1
     txBytes := tx
     rxBytes := rx
     txRetries := d.retries
     numClients := cli1
     channelBusyPercent := busy
     interferenceScan := interference_scan })

/-- A JSON-ish payload value as the consumer sees it. -/
inductive PyVal where
  | pInt (n : ℤ)
  | pStr (s : String)
  | pDictCh (v : PyVal)   -- a dict payload carrying a "channel" entry
  | pDictEmpty            -- a dict payload without a "channel" entry
  | pNone
deriving DecidableEq, Repr

/-- An inbound command record (`value` in `consumer_loop`). -/
structure CmdMsg where
  status : Option PyVal := none
  nodeId : Option String := none
  key : Option String := none
  command : Option String := none
  type : Option String := none
  payload : PyVal := .pNone
deriving Repr

/-- Python `s.split("-")` on a character list. -/
def splitDash (cs : List Char) : List (List Char) :=
  cs.foldr
    (fun c acc =>
      if c = '-' then [] :: acc
      else
        match acc with
        | [] => [[c]]
        | g :: gs => (c :: g) :: gs)
    [[]]

/-- Decimal value of a digit string. -/
def digitsVal (cs : List Char) : ℤ :=
  cs.foldl (fun a c => a * 10 + ((c.toNat : ℤ) - 48)) 0

/-- Strip surrounding whitespace. -/
def stripWs (cs : List Char) : List Char :=
  ((cs.dropWhile Char.isWhitespace).reverse.dropWhile Char.isWhitespace).reverse

/-- Python `int(s)` on a decimal string: optional surrounding whitespace,
optional sign, then one or more digits. -/
def pyParseIntChars (cs : List Char) : Option ℤ :=
  let t := stripWs cs
  let sg : ℤ × List Char :=
    match t with
    | '-' :: rest => (-1, rest)
    | '+' :: rest => (1, rest)
    | _ => (1, t)
  if sg.2 ≠ [] ∧ sg.2.all Char.isDigit then some (sg.1 * digitsVal sg.2) else none

def pyParseInt (s : String) : Option ℤ := pyParseIntChars s.data

/-- Node-index extraction of `consumer_loop`: `nodeId.startswith("node-")`
then `int(nodeId.split("-")[-1])`. -/
def parse_node_index (s : String) : Option ℤ :=
  if s.data.take 5 = ['n', 'o', 'd', 'e', '-'] then
    pyParseIntChars ((splitDash s.data).getLastD [])
  else none

/-- `value.get("a") or value.get("b") or None` on strings ("" is falsy). -/
def pyOrStr (a b : Option String) : Option String :=
  match a with
  | some s =>
    if s.data = [] then
      match b with
      | some t => if t.data = [] then none else some t
      | none => none
    else some s
  | none =>
    match b with
    | some t => if t.data = [] then none else some t
    | none => none

/-- `int(payload)` with the structured-dict fallback of `consumer_loop`. -/
def parse_payload_channel : PyVal → Option ℤ
  | .pInt n => some n
  | .pStr s => pyParseInt s
  | .pDictCh (.pInt n) => some n
  | .pDictCh (.pStr s) => pyParseInt s
  | .pDictCh _ => none
  | .pDictEmpty => none
  | .pNone => none

/-- A command-status message (timestamp and configVersion omitted: wall-clock
values used nowhere in the claims). -/
structure StatusMsg where
  nodeId : String
  command : String
  payload : String
  status : String
deriving DecidableEq, Repr

/-- `apply_command_delayed`: `r` is the `random.random()` failure draw.
Returns the updated node list and the single status message it publishes. -/
def apply_command_delayed (apply_fail_rate : ℚ) (states : List NodeState)
    (node_idx : ℕ) (new_ch : ℤ) (nodeId : String) (r : ℚ) : List NodeState × StatusMsg :=
  if r < apply_fail_rate then
    (states,
     { nodeId := nodeId
       command := "SET_CHANNEL"
       payload := toString new_ch
       status := "FAILED" })
  else
    (states.set (node_idx - 1)
      (let st := states.getD (node_idx - 1) default
       { st with channel := new_ch, per_channel_tx := [] }),
     { nodeId := nodeId
       command := "SET_CHANNEL"
       payload := toString new_ch
       status := "APPLIED" })

/-- Construction-time configuration of the simulator (defaults as in the CLI). -/
structure SimConfig where
  nodes : ℕ
  channels : List ℤ
  interference_pct : ℚ := 1/5
  burst_pct : ℚ := 0
  apply_delay : ℚ := 0
  apply_fail_rate : ℚ := 0
  neighbor_radius : ℚ := 50
  area_size : ℚ := 200
deriving Repr

/-- Outcome of handling one inbound record in `consumer_loop`: silently dropped,
scheduled on a timer (apply_delay > 0), or fired immediately. -/
inductive HandleResult where
  | dropped
  | pending (node_idx : ℕ) (new_ch : ℤ) (nodeId : String)
  | fired (states : List NodeState) (msg : StatusMsg)
deriving Repr

/-- Per-record validation and dispatch of `consumer_loop`; `r` is the failure
draw consumed if the apply fires immediately. -/
def consumer_handle_record (cfg : SimConfig) (states : List NodeState) (msg : CmdMsg)
    (r : ℚ) : HandleResult :=
  if msg.status.isSome then .dropped
  else
    match pyOrStr msg.nodeId msg.key with
    | none => .dropped
    | some nodeId =>
      if pyOrStr msg.command msg.type ≠ some "SET_CHANNEL" then .dropped
      else
        match parse_node_index nodeId with
        | none => .dropped
        | some idx =>
          match parse_payload_channel msg.payload with
          | none => .dropped
          | some new_ch =>
            if ¬(1 ≤ idx ∧ idx ≤ (cfg.nodes : ℤ)) then .dropped
            else if (states.getD (idx.toNat - 1) default).channel = new_ch then .dropped
            else if 0 < cfg.apply_delay then .pending idx.toNat new_ch nodeId
            else
              let res := apply_command_delayed cfg.apply_fail_rate states idx.toNat new_ch
                nodeId r
              .fired res.1 res.2

/-- `_rssi_from_distance`; `log10` models `math.log10`, `jitter` the
`random.uniform(-2, 2)` draw. -/
def rssi_from_distance (log10 : ℚ → ℚ) (dist_m : ℚ) (jitter : ℚ) : ℤ :=
  let d := if dist_m < 1 then 1 else dist_m
  let rssi := (-40 : ℚ) - 10 * 3 * log10 d + jitter
  max (-95) (min (-30) (pyRound rssi))

/-- Kinds of random draws consumed while building the topology. -/
inductive DrawKind where
  | chanChoice | posCoord | rssiInit | snrInit | clientsInit | interfSample | burstSample
deriving DecidableEq, Repr

/-- The seeded random source: an indexed stream of abstract draws, a cursor,
and the ghost trace of draw kinds consumed so far. -/
structure RNG where
  stream : ℕ → ℚ
  idx : ℕ
  trace : List DrawKind

def RNG.next (k : DrawKind) (g : RNG) : ℚ × RNG :=
  (g.stream g.idx, ⟨g.stream, g.idx + 1, g.trace ++ [k]⟩)

/-- The generator state right after `random.seed(seed)`. -/
def rng0 (s : ℕ → ℚ) : RNG := ⟨s, 0, []⟩

/-- `random.choice(xs)` modelled as one abstract draw selecting an index. -/
def py_choice (k : DrawKind) (xs : List ℤ) (g : RNG) : ℤ × RNG :=
  let n := RNG.next k g
  (xs.getD (⌊n.1 * xs.length⌋).toNat 0, n.2)

def py_uniform (k : DrawKind) (a b : ℚ) (g : RNG) : ℚ × RNG :=
  let n := RNG.next k g
  (a + n.1 * (b - a), n.2)

def py_randint (k : DrawKind) (a b : ℤ) (g : RNG) : ℤ × RNG :=
  let n := RNG.next k g
  (a + ⌊n.1 * ((b : ℚ) - a + 1)⌋, n.2)

/-- `random.gauss(mu, sigma)` modelled as one abstract standardized draw. -/
def py_gauss (k : DrawKind) (mu sigma : ℚ) (g : RNG) : ℚ × RNG :=
  let n := RNG.next k g
  (mu + sigma * n.1, n.2)

/-- `random.sample(pool, n)` modelled as `n` abstract draws, each selecting one
remaining element without replacement. -/
def py_sample (k : DrawKind) (pool : List ℕ) : ℕ → RNG → List ℕ × RNG
  | 0, g => ([], g)
  | n + 1, g =>
    let d := RNG.next k g
    let i := (⌊d.1 * pool.length⌋).toNat
    let res := py_sample k (pool.eraseIdx i) n d.2
    (pool.getD i 0 :: res.1, res.2)

/-- Python `f"node-{n:03d}"`. -/
def nodeIdOf (n : ℕ) : String :=
  if n < 10 then "node-00" ++ toString n
  else if n < 100 then "node-0" ++ toString n
  else "node-" ++ toString n

/-- One iteration of the node-creation loop in `NodeSimulator.__init__` together
with `NodeState.__init__`: channel choice, then the two position coordinates,
then the initial rssi/snr/client draws. -/
def mk_node_state (channels : List ℤ) (area_size : ℚ) (n : ℕ) (g : RNG) : NodeState × RNG :=
  let c := py_choice .chanChoice channels g
  let x := py_uniform .posCoord 0 area_size c.2
  let y := py_uniform .posCoord 0 area_size x.2
  let rs := py_randint .rssiInit (-85) (-40) y.2
  let sn := py_randint .snrInit 5 40 rs.2
  let gc := py_gauss .clientsInit 5 3 sn.2
  ({ node_id := nodeIdOf n
     channel := c.1
     pos := (x.1, y.1)
     rssi := rs.1
     snr := sn.1
     num_clients := max 0 (pyTrunc gc.1)
     txBytes := 0
     rxBytes := 0
     per_channel_tx := []
     smoothed_busy := 0 }, gc.2)

/-- The `for n in range(1, nodes + 1)` creation loop. -/
def init_states (channels : List ℤ) (area_size : ℚ) : List ℕ → RNG → List NodeState × RNG
  | [], g => ([], g)
  | n :: ns, g =>
    let s := mk_node_state channels area_size n g
    let res := init_states channels area_size ns s.2
    (s.1 :: res.1, res.2)

/-- Squared Euclidean distance between two positions. -/
def distSq (p q : ℚ × ℚ) : ℚ := (p.1 - q.1) * (p.1 - q.1) + (p.2 - q.2) * (p.2 - q.2)

/-- `_compute_neighbors`: `math.hypot(dx, dy) <= radius` expressed on squares
(equivalent since hypot is the nonnegative root; a negative radius admits no
neighbor, matching the hypot comparison). -/
def compute_neighbors (radius : ℚ) (states : List NodeState) : List (List ℕ) :=
  (List.range' 1 states.length).map (fun i =>
    (List.range' 1 states.length).filter (fun j =>
      decide (j ≠ i ∧ 0 ≤ radius ∧
        distSq (states.getD (i - 1) default).pos (states.getD (j - 1) default).pos
          ≤ radius * radius)))

/-- The topology produced at startup. -/
structure Topology where
  states : List NodeState
  interf_nodes : List ℕ
  burst_nodes : List ℕ
  neighbors : List (List ℕ)
deriving DecidableEq, Repr

/-- `k_interf = max(1, int(self.interference_pct * nodes))`. -/
def kInterf (cfg : SimConfig) : ℕ := (max 1 (pyTrunc (cfg.interference_pct * cfg.nodes))).toNat

/-- `k_burst = max(0, int(self.burst_pct * nodes))`. -/
def kBurst (cfg : SimConfig) : ℕ := (max 0 (pyTrunc (cfg.burst_pct * cfg.nodes))).toNat

/-- Topology construction in `NodeSimulator.__init__`: the node-creation loop,
then interference subset sampling, then burst subset sampling, then the pure
neighbor computation. -/
def init_topology (cfg : SimConfig) (g : RNG) : Topology × RNG :=
  let resS := init_states cfg.channels cfg.area_size (List.range' 1 cfg.nodes) g
  let resI := py_sample .interfSample (List.range' 1 cfg.nodes) (kInterf cfg) resS.2
  let resB := py_sample .burstSample (List.range' 1 cfg.nodes) (kBurst cfg) resI.2
  ({ states := resS.1
     interf_nodes := resI.1
     burst_nodes := resB.1
     neighbors := compute_neighbors cfg.neighbor_radius resS.1 }, resB.2)

/-- Number of abstract draws topology construction consumes. -/
def drawCount (cfg : SimConfig) : ℕ := 6 * cfg.nodes + kInterf cfg + kBurst cfg

/-- Draw kinds consumed per node, in source order. -/
def perNodeDraws : List DrawKind :=
  [.chanChoice, .posCoord, .posCoord, .rssiInit, .snrInit, .clientsInit]

/-- The full draw-kind trace the source consumes during topology construction. -/
def initDrawKinds (cfg : SimConfig) : List DrawKind :=
  (List.replicate cfg.nodes perNodeDraws).flatten
    ++ List.replicate (kInterf cfg) DrawKind.interfSample
    ++ List.replicate (kBurst cfg) DrawKind.burstSample

/-- Indices at which a given draw kind occurs in a trace. -/
def idxsOf (k : DrawKind) (t : List DrawKind) : List ℕ :=
  (t.enum.filter (fun p => p.2 == k)).map Prod.fst

/-- The draw order asserted by the spec: every position draw before every
channel draw, and every channel draw before every subset-sampling draw. -/
def specDrawOrder (t : List DrawKind) : Bool :=
  ((idxsOf .posCoord t).all (fun i => (idxsOf .chanChoice t).all (fun j => i < j)))
    && ((idxsOf .chanChoice t).all (fun i =>
          ((idxsOf .interfSample t).all (fun j => i < j))
            && ((idxsOf .burstSample t).all (fun j => i < j))))

/-- A tiny concrete configuration used for closed evaluations. -/
def cfgDemo : SimConfig := { nodes := 2, channels := [1, 6, 11] }

/-- A concrete draw stream. -/
def halfStream : ℕ → ℚ := fun _ => 1/2

/-- A concrete node used for closed evaluations: it has accumulated activity 10
on channel 6. -/
def demoNode1 : NodeState :=
  { node_id := "node-001"
    channel := 6
    pos := (0, 0)
    rssi := -50
    snr := 20
    num_clients := 3
    txBytes := 0
    rxBytes := 0
    per_channel_tx := [(6, 10)]
    smoothed_busy := 0 }

/-- A second concrete node with no accumulated activity. -/
def demoNode2 : NodeState :=
  { demoNode1 with node_id := "node-002", channel := 1, per_channel_tx := [] }

/-- A concrete two-node population used for closed evaluations. -/
def demoStates : List NodeState := [demoNode1, demoNode2]

/-- A concrete ten-node configuration used for closed command evaluations. -/
def cfg9 : SimConfig := { nodes := 10, channels := [1, 6, 11] }

/-- Ten nodes, all on channel 1. -/
def states9 : List NodeState := List.replicate 10 demoNode2

/-- A concrete SET_CHANNEL command addressed as "node-5". -/
def msg9 : CmdMsg := { nodeId := some "node-5", command := some "SET_CHANNEL", payload := .pInt 6 }

/-! ### Arithmetic helper lemmas -/

theorem le_clampQ (v lo hi : ℚ) : lo ≤ clampQ v lo hi := le_max_left _ _

theorem clampQ_le (v lo hi : ℚ) (h : lo ≤ hi) : clampQ v lo hi ≤ hi :=
  max_le h (min_le_left _ _)

theorem clampQ_le_of_le (v lo hi b : ℚ) (hlo : lo ≤ b) (hv : v ≤ b) : clampQ v lo hi ≤ b :=
  max_le hlo (le_trans (min_le_right _ _) hv)

theorem clampQ_eq_of (v lo hi : ℚ) (h1 : lo ≤ v) (h2 : v ≤ hi) : clampQ v lo hi = v := by
  unfold clampQ
  rw [min_eq_right h2, max_eq_right h1]

theorem pyRound_cases (x : ℚ) : pyRound x = ⌊x⌋ ∨ pyRound x = ⌊x⌋ + 1 := by
  unfold pyRound
  split_ifs <;> simp

theorem pyRound_le_intCast (x : ℚ) (n : ℤ) (h : x ≤ (n : ℚ)) : pyRound x ≤ n := by
  have hf : ⌊x⌋ ≤ n := by
    have := Int.floor_le_floor h
    simpa using this
  have hlt : ¬(x - (⌊x⌋ : ℚ) < 1/2) → ⌊x⌋ + 1 ≤ n := by
    intro hnot
    have h2 : (1 : ℚ)/2 ≤ x - (⌊x⌋ : ℚ) := le_of_not_lt hnot
    have : (⌊x⌋ : ℚ) < (n : ℚ) := by linarith
    have : ⌊x⌋ < n := by exact_mod_cast this
    omega
  unfold pyRound
  split_ifs with h1 h2 h3
  · exact hf
  · exact hlt h1
  · exact hf
  · exact hlt h1

theorem pyRound_intCast (n : ℤ) : pyRound ((n : ℚ)) = n := by
  unfold pyRound
  rw [Int.floor_intCast]
  norm_num

theorem round2_le_intCast (x : ℚ) (n : ℤ) (h : x ≤ (n : ℚ)) : round2 x ≤ (n : ℚ) := by
  have h100 : x * 100 ≤ ((n * 100 : ℤ) : ℚ) := by push_cast; linarith
  have hp : pyRound (x * 100) ≤ n * 100 := pyRound_le_intCast _ _ h100
  have hp' : (pyRound (x * 100) : ℚ) ≤ (n : ℚ) * 100 := by exact_mod_cast hp
  unfold round2
  rw [div_le_iff₀ (by norm_num : (0:ℚ) < 100)]
  linarith

theorem round2_intCast (n : ℤ) : round2 ((n : ℚ)) = (n : ℚ) := by
  unfold round2
  have : ((n : ℚ)) * 100 = ((n * 100 : ℤ) : ℚ) := by push_cast; ring
  rw [this, pyRound_intCast]
  push_cast
  field_simp

/-! ### Association-list (Python dict) lemmas -/

theorem txGet_eq_zero_of_not_hasKey (m : TxMap) (c : ℤ) (h : hasKey m c = false) :
    txGet m c = 0 := by
  unfold hasKey at h
  unfold txGet
  have : m.find? (fun p => p.1 == c) = none := by
    rw [List.find?_eq_none]
    intro p hp
    have := List.any_eq_false.mp h p hp
    simpa using this
  rw [this]

theorem txGet_cons (p : ℤ × ℚ) (m : TxMap) (c : ℤ) :
    txGet (p :: m) c = if p.1 = c then p.2 else txGet m c := by
  by_cases h : p.1 = c
  · have hb : (p.1 == c) = true := by simpa using h
    simp [txGet, List.find?, hb, h]
  · have hb : (p.1 == c) = false := by simpa using h
    simp [txGet, List.find?, hb, h]

theorem hasKey_cons (p : ℤ × ℚ) (m : TxMap) (c : ℤ) :
    hasKey (p :: m) c = ((p.1 == c) || hasKey m c) := by
  simp [hasKey]

theorem map_fst_map_kv (m : TxMap) (f : ℤ → ℚ → ℚ) :
    (m.map (fun p => (p.1, f p.1 p.2))).map Prod.fst = m.map Prod.fst := by
  simp [List.map_map]

theorem hasKey_map_kv (m : TxMap) (f : ℤ → ℚ → ℚ) (c : ℤ) :
    hasKey (m.map (fun p => (p.1, f p.1 p.2))) c = hasKey m c := by
  unfold hasKey
  induction m with
  | nil => rfl
  | cons p m ih => simp_all

theorem txGet_map_kv (m : TxMap) (f : ℤ → ℚ → ℚ) (c : ℤ) :
    txGet (m.map (fun p => (p.1, f p.1 p.2))) c
      = if hasKey m c then f c (txGet m c) else 0 := by
  induction m with
  | nil => simp [txGet, hasKey]
  | cons p m ih =>
    by_cases h : p.1 = c
    · simp [List.map_cons, txGet_cons, hasKey_cons, h]
    · have hb : (p.1 == c) = false := by simpa using h
      simp [List.map_cons, txGet_cons, hasKey_cons, h, hb, ih]

theorem hasKey_eq_false_iff (m : TxMap) (c : ℤ) :
    hasKey m c = false ↔ ∀ p ∈ m, p.1 ≠ c := by
  unfold hasKey
  rw [List.any_eq_false]
  constructor
  · intro h p hp
    simpa using h p hp
  · intro h p hp
    simpa using h p hp

theorem txGet_of_mem_nodup (m : TxMap) (p : ℤ × ℚ) (hnd : keysNodup m) (hp : p ∈ m) :
    txGet m p.1 = p.2 := by
  induction m with
  | nil => cases hp
  | cons q m ih =>
    unfold keysNodup at hnd
    rw [List.map_cons, List.nodup_cons] at hnd
    rcases List.mem_cons.mp hp with h | h
    · subst h
      simp [txGet_cons]
    · have hq : q.1 ≠ p.1 := by
        intro he
        exact hnd.1 (he ▸ List.mem_map.mpr ⟨p, h, rfl⟩)
      rw [txGet_cons, if_neg hq]
      exact ih hnd.2 h

theorem txGet_mem_of_hasKey (m : TxMap) (c : ℤ) (h : hasKey m c = true) :
    ∃ p ∈ m, p.1 = c ∧ p.2 = txGet m c := by
  induction m with
  | nil => simp [hasKey] at h
  | cons q m ih =>
    by_cases hq : q.1 = c
    · refine ⟨q, List.mem_cons_self q m, hq, ?_⟩
      rw [txGet_cons, if_pos hq]
    · have h' : hasKey m c = true := by
        rw [hasKey_cons] at h
        have hb : (q.1 == c) = false := by simpa using hq
        simpa [hb] using h
      obtain ⟨p, hp, hpc, hpv⟩ := ih h'
      refine ⟨p, List.mem_cons_of_mem _ hp, hpc, ?_⟩
      rw [txGet_cons, if_neg hq]
      exact hpv

theorem addToLoad_eq (m : TxMap) (ch : ℤ) (tx : ℚ) :
    addToLoad m ch tx
      = if hasKey m ch then m.map (fun p => (p.1, if p.1 = ch then p.2 + tx else p.2))
        else m := by
  unfold addToLoad
  split_ifs with h
  · apply List.map_congr_left
    intro p hp
    by_cases hc : p.1 = ch
    · have hb : (p.1 == ch) = true := by simpa using hc
      simp [hb, hc]
    · have hb : (p.1 == ch) = false := by simpa using hc
      simp [hb, hc]
  · rfl

theorem map_fst_addToLoad (m : TxMap) (ch : ℤ) (tx : ℚ) :
    (addToLoad m ch tx).map Prod.fst = m.map Prod.fst := by
  rw [addToLoad_eq]
  split_ifs
  · exact map_fst_map_kv m (fun k v => if k = ch then v + tx else v)
  · rfl

theorem hasKey_addToLoad (m : TxMap) (ch c : ℤ) (tx : ℚ) :
    hasKey (addToLoad m ch tx) c = hasKey m c := by
  rw [addToLoad_eq]
  split_ifs
  · exact hasKey_map_kv m (fun k v => if k = ch then v + tx else v) c
  · rfl

theorem txGet_addToLoad (m : TxMap) (ch c : ℤ) (tx : ℚ) :
    txGet (addToLoad m ch tx) c
      = if c = ch ∧ hasKey m ch = true then txGet m c + tx else txGet m c := by
  rw [addToLoad_eq]
  by_cases hk : hasKey m ch
  · rw [if_pos hk]
    rw [txGet_map_kv m (fun k v => if k = ch then v + tx else v) c]
    by_cases hc : hasKey m c
    · rw [if_pos hc]
      by_cases hcc : c = ch
      · simp [hcc, hk]
      · simp [hcc]
    · rw [if_neg hc]
      have h0 : txGet m c = 0 := txGet_eq_zero_of_not_hasKey m c (by simpa using hc)
      by_cases hcc : c = ch
      · rw [hcc] at hc
        exact absurd hk hc
      · simp [hcc, h0]
  · rw [if_neg hk]
    have : ¬(c = ch ∧ hasKey m ch = true) := by
      intro hcon
      exact hk hcon.2
    rw [if_neg this]

theorem entrySum_nil (c : ℤ) : entrySum [] c = 0 := rfl

theorem entrySum_cons (p : ℤ × ℚ) (es : TxMap) (c : ℤ) :
    entrySum (p :: es) c = (if p.1 = c then p.2 else 0) + entrySum es c := by
  by_cases h : p.1 = c
  · have hb : (p.1 == c) = true := by simpa using h
    simp [entrySum, hb, h]
  · have hb : (p.1 == c) = false := by simpa using h
    simp [entrySum, hb, h]

theorem txGet_nodeContrib (es : TxMap) (m : TxMap) (c : ℤ) :
    txGet (nodeContrib m es) c
      = txGet m c + (if hasKey m c then entrySum es c else 0) := by
  induction es generalizing m with
  | nil => simp [nodeContrib, entrySum_nil]
  | cons p es ih =>
    show txGet (nodeContrib (addToLoad m p.1 p.2) es) c = _
    rw [ih (addToLoad m p.1 p.2)]
    rw [hasKey_addToLoad, txGet_addToLoad, entrySum_cons]
    by_cases hc : hasKey m c
    · rw [if_pos hc, if_pos hc]
      by_cases hcc : c = p.1
      · have hkp : hasKey m p.1 = true := by rwa [hcc] at hc
        rw [if_pos ⟨hcc, hkp⟩, if_pos hcc.symm]
        ring
      · rw [if_neg (by intro hcon; exact hcc hcon.1), if_neg (by intro hcon; exact hcc hcon.symm)]
        ring
    · have hpp : ¬(c = p.1 ∧ hasKey m p.1 = true) := by
        intro hcon
        apply hc
        rw [hcon.1]
        exact hcon.2
      rw [if_neg hpp, if_neg hc, if_neg hc]

theorem map_fst_nodeContrib (es : TxMap) (m : TxMap) :
    (nodeContrib m es).map Prod.fst = m.map Prod.fst := by
  induction es generalizing m with
  | nil => rfl
  | cons p es ih =>
    show (nodeContrib (addToLoad m p.1 p.2) es).map Prod.fst = _
    rw [ih, map_fst_addToLoad]

theorem hasKey_iff_key_mem (m : TxMap) (c : ℤ) :
    hasKey m c = true ↔ c ∈ m.map Prod.fst := by
  unfold hasKey
  rw [List.any_eq_true]
  constructor
  · rintro ⟨p, hp, hb⟩
    exact List.mem_map.mpr ⟨p, hp, by simpa using hb⟩
  · intro h
    obtain ⟨p, hp, he⟩ := List.mem_map.mp h
    exact ⟨p, hp, by simpa using he⟩

theorem map_fst_foldl_contrib (states : List NodeState) (m : TxMap) :
    (states.foldl (fun acc s => nodeContrib acc s.per_channel_tx) m).map Prod.fst
      = m.map Prod.fst := by
  induction states generalizing m with
  | nil => rfl
  | cons s states ih =>
    rw [List.foldl_cons, ih, map_fst_nodeContrib]

theorem map_fst_buildLoadRaw (channels : List ℤ) (states : List NodeState) :
    (buildLoadRaw channels states).map Prod.fst = channels := by
  unfold buildLoadRaw
  rw [map_fst_foldl_contrib]
  simp [List.map_map, Function.comp_def]

theorem txGet_foldl_contrib (states : List NodeState) (m : TxMap) (c : ℤ) :
    txGet (states.foldl (fun acc s => nodeContrib acc s.per_channel_tx) m) c
      = txGet m c
        + (if hasKey m c then (states.map (fun s => entrySum s.per_channel_tx c)).sum else 0) := by
  induction states generalizing m with
  | nil => simp
  | cons s states ih =>
    rw [List.foldl_cons, ih, txGet_nodeContrib]
    have hk : hasKey (nodeContrib m s.per_channel_tx) c = hasKey m c := by
      by_cases h : hasKey m c
      · rw [h]
        rw [hasKey_iff_key_mem, ← map_fst_nodeContrib s.per_channel_tx m,
          ← hasKey_iff_key_mem] at h
        exact h
      · have h' : hasKey m c = false := by simpa using h
        rw [h']
        by_contra hcon
        have : hasKey (nodeContrib m s.per_channel_tx) c = true := by
          simpa using hcon
        rw [hasKey_iff_key_mem, map_fst_nodeContrib, ← hasKey_iff_key_mem] at this
        rw [this] at h'
        cases h'
    rw [hk]
    by_cases h : hasKey m c
    · simp only [if_pos h, List.map_cons, List.sum_cons]
      ring
    · simp only [if_neg h]
      ring

theorem txGet_init_map_zero (channels : List ℤ) (c : ℤ) :
    txGet (channels.map (fun ch => (ch, (0 : ℚ)))) c = 0 := by
  induction channels with
  | nil => rfl
  | cons ch channels ih =>
    rw [List.map_cons, txGet_cons]
    split_ifs <;> simp [ih]

theorem hasKey_init_map (channels : List ℤ) (c : ℤ) :
    hasKey (channels.map (fun ch => (ch, (0 : ℚ)))) c = true ↔ c ∈ channels := by
  rw [hasKey_iff_key_mem]
  simp [List.map_map]

/-- The raw load of a configured channel is the sum over all nodes of that
node's activity entries under the channel. -/
theorem txGet_buildLoadRaw (channels : List ℤ) (states : List NodeState) (c : ℤ)
    (hc : c ∈ channels) :
    txGet (buildLoadRaw channels states) c
      = (states.map (fun s => entrySum s.per_channel_tx c)).sum := by
  unfold buildLoadRaw
  rw [txGet_foldl_contrib, txGet_init_map_zero,
    if_pos ((hasKey_init_map channels c).mpr hc)]
  ring

theorem le_foldl_max (vs : List ℚ) (a : ℚ) : a ≤ vs.foldl max a := by
  induction vs generalizing a with
  | nil => exact le_refl a
  | cons v vs ih => exact le_trans (le_max_left a v) (ih (max a v))

theorem foldl_max_of_mem (vs : List ℚ) (a x : ℚ) (h : x ∈ vs) : x ≤ vs.foldl max a := by
  induction vs generalizing a with
  | nil => cases h
  | cons v vs ih =>
    rcases List.mem_cons.mp h with he | hm
    · subst he
      exact le_trans (le_max_right a x) (le_foldl_max vs (max a x))
    · exact ih (max a v) hm

theorem le_qListMax (l : List ℚ) (x : ℚ) (h : x ∈ l) : x ≤ qListMax l := by
  cases l with
  | nil => cases h
  | cons v vs =>
    rcases List.mem_cons.mp h with he | hm
    · subst he
      exact le_foldl_max vs x
    · exact foldl_max_of_mem vs v x hm

theorem foldl_max_mem (vs : List ℚ) (a : ℚ) : vs.foldl max a ∈ a :: vs := by
  induction vs generalizing a with
  | nil => simp
  | cons v vs ih =>
    rw [List.foldl_cons]
    rcases List.mem_cons.mp (ih (max a v)) with he | hm
    · rcases max_choice a v with hc | hc <;> rw [he, hc] <;> simp
    · simp only [List.mem_cons]
      right
      right
      exact hm

theorem qListMax_mem (l : List ℚ) (h : l ≠ []) : qListMax l ∈ l := by
  cases l with
  | nil => exact absurd rfl h
  | cons v vs => exact foldl_max_mem vs v

theorem entrySum_eq_zero_of_not_hasKey (es : TxMap) (c : ℤ) (h : hasKey es c = false) :
    entrySum es c = 0 := by
  unfold entrySum
  have hnil : es.filter (fun p => p.1 == c) = [] := by
    rw [List.filter_eq_nil_iff]
    intro p hp
    have := (hasKey_eq_false_iff es c).mp h p hp
    simpa using this
  rw [hnil]
  rfl

theorem entrySum_eq_txGet (es : TxMap) (c : ℤ) (hnd : keysNodup es) :
    entrySum es c = txGet es c := by
  induction es with
  | nil => rfl
  | cons p es ih =>
    unfold keysNodup at hnd
    rw [List.map_cons, List.nodup_cons] at hnd
    rw [entrySum_cons, txGet_cons]
    by_cases h : p.1 = c
    · rw [if_pos h, if_pos h]
      have hk : hasKey es c = false := by
        rw [← h]
        by_contra hcon
        have hck : hasKey es p.1 = true := by simpa using hcon
        rw [hasKey_iff_key_mem] at hck
        exact hnd.1 hck
      rw [entrySum_eq_zero_of_not_hasKey es c hk]
      ring
    · rw [if_neg h, if_neg h, ih hnd.2]
      ring

/-- A dict with distinct keys is determined by its key list and lookups. -/
theorem eq_keys_map_txGet (m : TxMap) (hnd : keysNodup m) :
    m = (m.map Prod.fst).map (fun c => (c, txGet m c)) := by
  induction m with
  | nil => rfl
  | cons p m ih =>
    unfold keysNodup at hnd
    rw [List.map_cons, List.nodup_cons] at hnd
    rw [List.map_cons, List.map_cons]
    have h1 : txGet (p :: m) p.1 = p.2 := by
      rw [txGet_cons, if_pos rfl]
    rw [h1]
    have h2 : (m.map Prod.fst).map (fun c => (c, txGet (p :: m) c))
        = (m.map Prod.fst).map (fun c => (c, txGet m c)) := by
      apply List.map_congr_left
      intro c hc
      have hpc : p.1 ≠ c := by
        intro he
        exact hnd.1 (he ▸ hc)
      rw [txGet_cons, if_neg hpc]
    rw [h2, ← ih hnd.2]

theorem raw_values_eq (channels : List ℤ) (states : List NodeState) (hcn : channels.Nodup) :
    (buildLoadRaw channels states).map Prod.snd
      = channels.map (fun c => txGet (buildLoadRaw channels states) c) := by
  have hnd : keysNodup (buildLoadRaw channels states) := by
    unfold keysNodup
    rw [map_fst_buildLoadRaw]
    exact hcn
  have h := eq_keys_map_txGet (buildLoadRaw channels states) hnd
  conv_lhs => rw [h]
  rw [List.map_map, map_fst_buildLoadRaw]
  apply List.map_congr_left
  intro c hc
  rfl

theorem txGet_busy_map (channels : List ℤ) (states : List NodeState) (ch : ℤ)
    (hch : ch ∈ channels) :
    txGet (compute_channel_busy_map_and_raw channels states).1 ch
      = clampQ (round2 (txGet (buildLoadRaw channels states) ch
          / max 1 (qListMax ((buildLoadRaw channels states).map Prod.snd)) * 90)) 0 100 := by
  have hk : hasKey (buildLoadRaw channels states) ch = true := by
    rw [hasKey_iff_key_mem, map_fst_buildLoadRaw]
    exact hch
  have h1 : (compute_channel_busy_map_and_raw channels states).1
      = (buildLoadRaw channels states).map (fun p => (p.1,
          clampQ (round2 (p.2
            / max 1 (qListMax ((buildLoadRaw channels states).map Prod.snd)) * 90)) 0 100)) := rfl
  rw [h1, txGet_map_kv (buildLoadRaw channels states)
    (fun k v => clampQ (round2 (v
      / max 1 (qListMax ((buildLoadRaw channels states).map Prod.snd)) * 90)) 0 100) ch,
    if_pos hk]

theorem raw_sum_eq (channels : List ℤ) (states : List NodeState) (c : ℤ) (hc : c ∈ channels)
    (hnd : ∀ s ∈ states, keysNodup s.per_channel_tx) :
    txGet (buildLoadRaw channels states) c
      = (states.map (fun s => txGet s.per_channel_tx c)).sum := by
  rw [txGet_buildLoadRaw channels states c hc]
  congr 1
  apply List.map_congr_left
  intro s hs
  exact entrySum_eq_txGet _ _ (hnd s hs)

/-- C4: each cycle's global occupancy sums every node's per-channel activity over
all nodes into a raw-load map restricted to the configured channels, and maps
each channel's raw load to `clamp(round2(raw / max(1, maxRaw) * 90.0), 0, 100)`;
a channel with no activity maps to busy 0. -/
theorem claim_C4_global_occupancy (channels : List ℤ) (states : List NodeState) (ch : ℤ)
    (hch : ch ∈ channels) (hcn : channels.Nodup)
    (hnd : ∀ s ∈ states, keysNodup s.per_channel_tx) :
    (txGet (compute_channel_busy_map_and_raw channels states).2 ch
        = (states.map (fun s => txGet s.per_channel_tx ch)).sum)
    ∧ (txGet (compute_channel_busy_map_and_raw channels states).1 ch
        = clampQ (round2 ((states.map (fun s => txGet s.per_channel_tx ch)).sum
            / max 1 (qListMax (channels.map (fun c =>
                (states.map (fun s => txGet s.per_channel_tx c)).sum))) * 90)) 0 100)
    ∧ ((∀ s ∈ states, txGet s.per_channel_tx ch = 0)
        → txGet (compute_channel_busy_map_and_raw channels states).1 ch = 0) := by
  have hsnd : (compute_channel_busy_map_and_raw channels states).2
      = buildLoadRaw channels states := rfl
  have hvals : (buildLoadRaw channels states).map Prod.snd
      = channels.map (fun c => (states.map (fun s => txGet s.per_channel_tx c)).sum) := by
    rw [raw_values_eq channels states hcn]
    apply List.map_congr_left
    intro c hc
    exact raw_sum_eq channels states c hc hnd
  have hbusy : txGet (compute_channel_busy_map_and_raw channels states).1 ch
      = clampQ (round2 ((states.map (fun s => txGet s.per_channel_tx ch)).sum
          / max 1 (qListMax (channels.map (fun c =>
              (states.map (fun s => txGet s.per_channel_tx c)).sum))) * 90)) 0 100 := by
    rw [txGet_busy_map channels states ch hch, raw_sum_eq channels states ch hch hnd, hvals]
  refine ⟨by rw [hsnd]; exact raw_sum_eq channels states ch hch hnd, hbusy, ?_⟩
  intro hall
  rw [hbusy]
  have hz : (states.map (fun s => txGet s.per_channel_tx ch)).sum = 0 := by
    apply List.sum_eq_zero
    intro x hx
    obtain ⟨s, hs, he⟩ := List.mem_map.mp hx
    rw [← he]
    exact hall s hs
  rw [hz, zero_div, zero_mul]
  rw [show ((0 : ℚ)) = (((0 : ℤ) : ℚ)) from by norm_num, round2_intCast]
  rw [clampQ_eq_of] <;> norm_num

/-- A value looked up under a present key is one of the stored values. -/
theorem txGet_mem_values (m : TxMap) (c : ℤ) (h : hasKey m c = true) :
    txGet m c ∈ m.map Prod.snd := by
  obtain ⟨p, hp, _, hv⟩ := txGet_mem_of_hasKey m c h
  exact List.mem_map.mpr ⟨p, hp, hv⟩

theorem txGet_nonneg_of_entries (m : TxMap) (c : ℤ)
    (h : ∀ p ∈ m, p.2 = 0 ∨ 1 ≤ p.2) : 0 ≤ txGet m c := by
  by_cases hk : hasKey m c
  · obtain ⟨p, hp, _, hv⟩ := txGet_mem_of_hasKey m c hk
    rcases h p hp with h0 | h1
    · rw [← hv, h0]
    · rw [← hv]
      linarith
  · rw [txGet_eq_zero_of_not_hasKey m c (by simpa using hk)]

/-- C10: every global busy value is at most 90 (hence below 100), and as soon as
any activity exists the busiest channel reports exactly 90. -/
theorem claim_C10_busy_ceiling (channels : List ℤ) (states : List NodeState)
    (hcn : channels.Nodup)
    (hnd : ∀ s ∈ states, keysNodup s.per_channel_tx)
    (h01 : ∀ s ∈ states, ∀ p ∈ s.per_channel_tx, p.2 = 0 ∨ 1 ≤ p.2)
    (hex : ∃ s ∈ states, ∃ p ∈ s.per_channel_tx, p.1 ∈ channels ∧ 0 < p.2) :
    (∀ ch ∈ channels, txGet (compute_channel_busy_map_and_raw channels states).1 ch ≤ 90)
    ∧ (∃ ch ∈ channels, txGet (compute_channel_busy_map_and_raw channels states).1 ch = 90)
    ∧ (∀ ch ∈ channels,
        txGet (compute_channel_busy_map_and_raw channels states).1 ch < 100) := by
  have hndraw : keysNodup (buildLoadRaw channels states) := by
    unfold keysNodup
    rw [map_fst_buildLoadRaw]
    exact hcn
  have hM1 : (1 : ℚ) ≤ max 1 (qListMax ((buildLoadRaw channels states).map Prod.snd)) :=
    le_max_left _ _
  have hMpos : (0 : ℚ) < max 1 (qListMax ((buildLoadRaw channels states).map Prod.snd)) := by
    linarith
  have hle : ∀ ch ∈ channels,
      txGet (compute_channel_busy_map_and_raw channels states).1 ch ≤ 90 := by
    intro ch hch
    rw [txGet_busy_map channels states ch hch]
    have hk : hasKey (buildLoadRaw channels states) ch = true := by
      rw [hasKey_iff_key_mem, map_fst_buildLoadRaw]
      exact hch
    have hvm : txGet (buildLoadRaw channels states) ch
        ∈ (buildLoadRaw channels states).map Prod.snd := txGet_mem_values _ _ hk
    have hvle : txGet (buildLoadRaw channels states) ch
        ≤ max 1 (qListMax ((buildLoadRaw channels states).map Prod.snd)) :=
      le_trans (le_qListMax _ _ hvm) (le_max_right _ _)
    have hdiv : txGet (buildLoadRaw channels states) ch
        / max 1 (qListMax ((buildLoadRaw channels states).map Prod.snd)) ≤ 1 :=
      (div_le_one hMpos).mpr hvle
    have harg : txGet (buildLoadRaw channels states) ch
        / max 1 (qListMax ((buildLoadRaw channels states).map Prod.snd)) * 90 ≤ 90 := by
      nlinarith
    have hr : round2 (txGet (buildLoadRaw channels states) ch
        / max 1 (qListMax ((buildLoadRaw channels states).map Prod.snd)) * 90) ≤ ((90 : ℤ) : ℚ) :=
      round2_le_intCast _ 90 (by exact_mod_cast harg)
    exact clampQ_le_of_le _ _ _ _ (by norm_num) (by exact_mod_cast hr)
  refine ⟨hle, ?_, fun ch hch => lt_of_le_of_lt (hle ch hch) (by norm_num)⟩
  obtain ⟨s0, hs0, p0, hp0, hp0c, hp0pos⟩ := hex
  have hval : txGet s0.per_channel_tx p0.1 = p0.2 :=
    txGet_of_mem_nodup _ _ (hnd s0 hs0) hp0
  have h1le : (1 : ℚ) ≤ p0.2 := by
    rcases h01 s0 hs0 p0 hp0 with h0 | h1
    · rw [h0] at hp0pos
      exact absurd hp0pos (lt_irrefl 0)
    · exact h1
  have hterm : p0.2 ∈ states.map (fun s => txGet s.per_channel_tx p0.1) :=
    List.mem_map.mpr ⟨s0, hs0, hval⟩
  have hnn : ∀ x ∈ states.map (fun s => txGet s.per_channel_tx p0.1), (0 : ℚ) ≤ x := by
    intro x hx
    obtain ⟨s, hs, he⟩ := List.mem_map.mp hx
    rw [← he]
    exact txGet_nonneg_of_entries _ _ (h01 s hs)
  have hsum1 : (1 : ℚ) ≤ (states.map (fun s => txGet s.per_channel_tx p0.1)).sum :=
    le_trans h1le (List.single_le_sum hnn _ hterm)
  have hraw1 : (1 : ℚ) ≤ txGet (buildLoadRaw channels states) p0.1 := by
    rw [raw_sum_eq channels states p0.1 hp0c hnd]
    exact hsum1
  have hkey0 : hasKey (buildLoadRaw channels states) p0.1 = true := by
    rw [hasKey_iff_key_mem, map_fst_buildLoadRaw]
    exact hp0c
  have hvals_ne : (buildLoadRaw channels states).map Prod.snd ≠ [] := by
    intro hcon
    have := txGet_mem_values _ _ hkey0
    rw [hcon] at this
    cases this
  have hmax1 : (1 : ℚ) ≤ qListMax ((buildLoadRaw channels states).map Prod.snd) :=
    le_trans hraw1 (le_qListMax _ _ (txGet_mem_values _ _ hkey0))
  have hMeq : max 1 (qListMax ((buildLoadRaw channels states).map Prod.snd))
      = qListMax ((buildLoadRaw channels states).map Prod.snd) := max_eq_right hmax1
  obtain ⟨pm, hpm, hpmv⟩ :=
    List.mem_map.mp (qListMax_mem _ hvals_ne)
  have hpmch : pm.1 ∈ channels := by
    rw [← map_fst_buildLoadRaw channels states]
    exact List.mem_map.mpr ⟨pm, hpm, rfl⟩
  have hpml : txGet (buildLoadRaw channels states) pm.1 = pm.2 :=
    txGet_of_mem_nodup _ _ hndraw hpm
  refine ⟨pm.1, hpmch, ?_⟩
  rw [txGet_busy_map channels states pm.1 hpmch, hpml, hMeq, hpmv]
  have hqpos : (0 : ℚ) < qListMax ((buildLoadRaw channels states).map Prod.snd) := by
    linarith
  rw [div_self (ne_of_gt hqpos), one_mul]
  rw [show ((90 : ℚ)) = (((90 : ℤ) : ℚ)) from by norm_num, round2_intCast]
  rw [clampQ_eq_of] <;> norm_num

theorem claim_C4_witness :
    txGet (compute_channel_busy_map_and_raw [1, 6, 11] demoStates).2 6
      = (demoStates.map (fun s => txGet s.per_channel_tx 6)).sum :=
  (claim_C4_global_occupancy [1, 6, 11] demoStates 6 (by norm_num) (by decide)
    (by
      intro s hs
      simp only [demoStates, List.mem_cons, List.not_mem_nil, or_false] at hs
      rcases hs with h | h <;> subst h <;>
        simp [demoNode1, demoNode2, keysNodup] )).1

theorem claim_C10_witness :
    ∃ ch ∈ ([1, 6, 11] : List ℤ),
      txGet (compute_channel_busy_map_and_raw [1, 6, 11] demoStates).1 ch = 90 :=
  (claim_C10_busy_ceiling [1, 6, 11] demoStates (by decide)
    (by
      intro s hs
      simp only [demoStates, List.mem_cons, List.not_mem_nil, or_false] at hs
      rcases hs with h | h <;> subst h <;>
        simp [demoNode1, demoNode2, keysNodup])
    (by
      intro s hs p hp
      simp only [demoStates, List.mem_cons, List.not_mem_nil, or_false] at hs
      rcases hs with h | h <;> subst h <;>
        simp only [demoNode1, demoNode2] at hp <;> simp at hp
      · rw [hp]
        norm_num)
    ⟨demoNode1, by simp [demoStates], (6, 10), by simp [demoNode1], by norm_num,
      by norm_num⟩).2.1

theorem decayTx_cons (p : ℤ × ℚ) (m : TxMap) :
    decayTx (p :: m)
      = if 1 ≤ p.2 * (3/5) then (p.1, p.2 * (3/5)) :: decayTx m else decayTx m := by
  by_cases h : (1 : ℚ) ≤ p.2 * (3/5)
  · simp [decayTx, List.filter_cons, h]
  · simp [decayTx, List.filter_cons, h]

theorem keysNodup_decayTx (m : TxMap) (hnd : keysNodup m) : keysNodup (decayTx m) := by
  unfold keysNodup at hnd ⊢
  have hsub : List.Sublist (decayTx m) (m.map (fun p => (p.1, p.2 * (3/5)))) :=
    List.filter_sublist _
  have hsub2 := hsub.map Prod.fst
  rw [map_fst_map_kv m (fun k v => v * (3/5))] at hsub2
  exact hnd.sublist hsub2

theorem mem_decayTx_ge_one (m : TxMap) (p : ℤ × ℚ) (hp : p ∈ decayTx m) : 1 ≤ p.2 := by
  unfold decayTx at hp
  have := List.of_mem_filter hp
  simpa using this

theorem mem_decayTx_nonneg (m : TxMap) (p : ℤ × ℚ) (hp : p ∈ decayTx m) : 0 ≤ p.2 :=
  le_trans (by norm_num) (mem_decayTx_ge_one m p hp)

theorem hasKey_decayTx_false (m : TxMap) (c : ℤ) (h : hasKey m c = false) :
    hasKey (decayTx m) c = false := by
  by_contra hcon
  have hk : hasKey (decayTx m) c = true := by simpa using hcon
  rw [hasKey_iff_key_mem] at hk
  obtain ⟨p, hp, he⟩ := List.mem_map.mp hk
  have hpm : p ∈ m.map (fun p => (p.1, p.2 * (3/5))) := List.mem_of_mem_filter hp
  obtain ⟨q, hq, hqe⟩ := List.mem_map.mp hpm
  have : q.1 = c := by
    rw [← he, ← hqe]
  have hkm : hasKey m c = true := by
    rw [hasKey_iff_key_mem]
    exact List.mem_map.mpr ⟨q, hq, this⟩
  rw [hkm] at h
  cases h

theorem txGet_nonneg (m : TxMap) (c : ℤ) (h : ∀ p ∈ m, 0 ≤ p.2) : 0 ≤ txGet m c := by
  by_cases hk : hasKey m c
  · obtain ⟨p, hp, _, hv⟩ := txGet_mem_of_hasKey m c hk
    rw [← hv]
    exact h p hp
  · rw [txGet_eq_zero_of_not_hasKey m c (by simpa using hk)]

theorem txGet_decayTx (m : TxMap) (c : ℤ) (hnd : keysNodup m) :
    txGet (decayTx m) c
      = if 1 ≤ txGet m c * (3/5) then txGet m c * (3/5) else 0 := by
  induction m with
  | nil => norm_num [decayTx, txGet]
  | cons p m ih =>
    unfold keysNodup at hnd
    rw [List.map_cons, List.nodup_cons] at hnd
    rw [decayTx_cons, txGet_cons]
    by_cases hc : p.1 = c
    · have hkm : hasKey m c = false := by
        rw [← hc]
        by_contra hcon
        have hmem : hasKey m p.1 = true := by simpa using hcon
        rw [hasKey_iff_key_mem] at hmem
        exact hnd.1 hmem
      have htd : txGet (decayTx m) c = 0 :=
        txGet_eq_zero_of_not_hasKey (decayTx m) c (hasKey_decayTx_false m c hkm)
      rw [if_pos hc]
      by_cases h1 : (1 : ℚ) ≤ p.2 * (3/5)
      · rw [if_pos h1, if_pos h1, txGet_cons]
        exact if_pos hc
      · rw [if_neg h1, if_neg h1]
        exact htd
    · rw [if_neg hc]
      by_cases h1 : (1 : ℚ) ≤ p.2 * (3/5)
      · rw [if_pos h1]
        have hskip : txGet ((p.1, p.2 * (3/5)) :: decayTx m) c = txGet (decayTx m) c := by
          rw [txGet_cons]
          exact if_neg hc
        rw [hskip]
        exact ih hnd.2
      · rw [if_neg h1]
        exact ih hnd.2

theorem txGet_decayTx_le (m : TxMap) (c : ℤ) (hnd : keysNodup m)
    (h0 : 0 ≤ txGet m c) : txGet (decayTx m) c ≤ txGet m c * (3/5) := by
  rw [txGet_decayTx m c hnd]
  split_ifs with h
  · exact le_refl _
  · positivity

theorem decay_iter_props (m : TxMap) (c : ℤ) (hnd : keysNodup m)
    (h0 : ∀ p ∈ m, 0 ≤ p.2) (k : ℕ) :
    keysNodup (decayTx^[k] m) ∧ (∀ p ∈ decayTx^[k] m, 0 ≤ p.2)
      ∧ txGet (decayTx^[k] m) c ≤ (3/5) ^ k * txGet m c := by
  induction k with
  | zero => exact ⟨hnd, h0, by norm_num⟩
  | succ k ih =>
    obtain ⟨ihnd, ih0, ihle⟩ := ih
    rw [Function.iterate_succ_apply']
    refine ⟨keysNodup_decayTx _ ihnd, fun p hp => mem_decayTx_nonneg _ p hp, ?_⟩
    have hnn : 0 ≤ txGet (decayTx^[k] m) c := txGet_nonneg _ c ih0
    have h1 := txGet_decayTx_le (decayTx^[k] m) c ihnd hnn
    have h2 : txGet (decayTx^[k] m) c * (3/5) ≤ (3/5) ^ k * txGet m c * (3/5) := by
      nlinarith
    calc txGet (decayTx (decayTx^[k] m)) c
        ≤ txGet (decayTx^[k] m) c * (3/5) := h1
      _ ≤ (3/5) ^ k * txGet m c * (3/5) := h2
      _ = (3/5) ^ (k + 1) * txGet m c := by ring

theorem hasKey_iter_false (m : TxMap) (c : ℤ) (n : ℕ) (h : hasKey (decayTx^[n] m) c = false)
    (k : ℕ) (hk : n ≤ k) : hasKey (decayTx^[k] m) c = false := by
  obtain ⟨d, rfl⟩ := Nat.exists_eq_add_of_le hk
  induction d with
  | zero => simpa using h
  | succ d ih =>
    rw [show n + (d + 1) = (n + d) + 1 from by omega, Function.iterate_succ_apply']
    exact hasKey_decayTx_false _ c (ih (by omega))

/-- C6: the decay step multiplies every per-channel activity value by 0.6 and
removes entries below 1.0; consequently an activity value strictly decreases
while positive under decay, and the entry is removed for good after a bounded
number of decay steps, after which its lookup (its raw-load contribution) is 0. -/
theorem claim_C6_decay (m : TxMap) (c : ℤ) (hnd : keysNodup m)
    (h0 : ∀ p ∈ m, 0 ≤ p.2) :
    (txGet (decayTx m) c = if 1 ≤ txGet m c * (3/5) then txGet m c * (3/5) else 0)
    ∧ (0 < txGet m c → txGet (decayTx m) c < txGet m c)
    ∧ (∃ N, ∀ k, N ≤ k →
        hasKey (decayTx^[k] m) c = false ∧ txGet (decayTx^[k] m) c = 0) := by
  refine ⟨txGet_decayTx m c hnd, ?_, ?_⟩
  · intro hpos
    rw [txGet_decayTx m c hnd]
    split_ifs with h
    · linarith
    · exact hpos
  · have key_absent : ∀ k, 1 ≤ k → (3/5 : ℚ) ^ k * txGet m c < 1
        → hasKey (decayTx^[k] m) c = false := by
      intro k hk1 hlt
      by_contra hcon
      have hkk : hasKey (decayTx^[k] m) c = true := by simpa using hcon
      obtain ⟨p, hp, _, hv⟩ := txGet_mem_of_hasKey _ c hkk
      obtain ⟨d, rfl⟩ := Nat.exists_eq_add_of_le hk1
      have hmem1 : 1 ≤ p.2 := by
        rw [show 1 + d = d + 1 from by omega, Function.iterate_succ_apply'] at hp
        exact mem_decayTx_ge_one _ p hp
      have hle := (decay_iter_props m c hnd h0 (1 + d)).2.2
      rw [← hv] at hle
      linarith
    have hv0 : 0 ≤ txGet m c := txGet_nonneg m c h0
    rcases eq_or_lt_of_le hv0 with hz | hpos
    · refine ⟨1, fun k hk => ?_⟩
      have habs : hasKey (decayTx^[k] m) c = false := by
        apply key_absent k hk
        rw [← hz]
        norm_num
      exact ⟨habs, txGet_eq_zero_of_not_hasKey _ c habs⟩
    · obtain ⟨n, hn⟩ := exists_pow_lt_of_lt_one
        (show (0 : ℚ) < 1 / txGet m c from by positivity)
        (show (3/5 : ℚ) < 1 from by norm_num)
      have hn' : (3/5 : ℚ) ^ n * txGet m c < 1 := by
        rw [lt_div_iff₀ hpos] at hn
        exact hn
      refine ⟨n + 1, fun k hk => ?_⟩
      have hpow : (3/5 : ℚ) ^ k ≤ (3/5 : ℚ) ^ n :=
        pow_le_pow_of_le_one (by norm_num) (by norm_num) (by omega)
      have hklt : (3/5 : ℚ) ^ k * txGet m c < 1 := by
        have : (3/5 : ℚ) ^ k * txGet m c ≤ (3/5 : ℚ) ^ n * txGet m c := by
          nlinarith
        linarith
      have habs := key_absent k (by omega) hklt
      exact ⟨habs, txGet_eq_zero_of_not_hasKey _ c habs⟩

theorem claim_C6_witness :
    0 < txGet [((6 : ℤ), (10 : ℚ))] 6
      ∧ txGet (decayTx [((6 : ℤ), (10 : ℚ))]) 6 < txGet [((6 : ℤ), (10 : ℚ))] 6 :=
  ⟨by rw [txGet_cons]; norm_num,
   (claim_C6_decay [((6 : ℤ), (10 : ℚ))] 6 (by simp [keysNodup])
      (by
        intro p hp
        simp only [List.mem_singleton] at hp
        rw [hp]
        norm_num)).2.1
     (by rw [txGet_cons]; norm_num)⟩

theorem activeTxs_pos (states : List NodeState) (ch : ℤ) :
    ∀ x ∈ activeTxs states ch, 0 < x := by
  intro x hx
  unfold activeTxs at hx
  have := List.of_mem_filter hx
  simpa using this

theorem foldl_active (states : List NodeState) (ch : ℤ) (a : ℚ) (k : ℕ) :
    states.foldl
      (fun (a : ℚ × ℕ) n =>
        let tx := txGet n.per_channel_tx ch
        if 0 < tx then (a.1 + tx, a.2 + 1) else a) (a, k)
      = (a + (activeTxs states ch).sum, k + (activeTxs states ch).length) := by
  induction states generalizing a k with
  | nil => simp [activeTxs]
  | cons s states ih =>
    rw [List.foldl_cons]
    show states.foldl _
        (if 0 < txGet s.per_channel_tx ch
          then (a + txGet s.per_channel_tx ch, k + 1) else (a, k)) = _
    by_cases h : 0 < txGet s.per_channel_tx ch
    · rw [if_pos h, ih]
      have hact : activeTxs (s :: states) ch
          = txGet s.per_channel_tx ch :: activeTxs states ch := by
        simp [activeTxs, List.filter_cons, h]
      rw [hact]
      simp only [List.sum_cons, List.length_cons, Prod.mk.injEq]
      refine ⟨by ring, by omega⟩
    · rw [if_neg h, ih]
      have hact : activeTxs (s :: states) ch = activeTxs states ch := by
        simp [activeTxs, List.filter_cons, h]
      rw [hact]

theorem lf_bridge (ts : List ℚ) (hpos : ∀ x ∈ ts, 0 < x) (local_tx : ℚ) :
    (if 0 < (if 0 < ts.length then ts.sum / (ts.length : ℚ) else 0)
      then clampQ (local_tx
          / ((if 0 < ts.length then ts.sum / (ts.length : ℚ) else 0) + 1) - 1) (-(1/2)) 5
      else 0)
    = if ts.length = 0 then 0
      else clampQ (local_tx / (ts.sum / (ts.length : ℚ) + 1) - 1) (-(1/2)) 5 := by
  by_cases h : ts.length = 0
  · rw [if_pos h]
    rw [if_neg (show ¬0 < ts.length from by omega)]
    norm_num
  · have hlpos : 0 < ts.length := Nat.pos_of_ne_zero h
    have hne : ts ≠ [] := by
      intro hc
      rw [hc] at h
      exact h rfl
    have hsum : 0 < ts.sum := List.sum_pos _ hpos hne
    have havg : 0 < ts.sum / (ts.length : ℚ) := div_pos hsum (by exact_mod_cast hlpos)
    rw [if_neg h, if_pos hlpos, if_pos havg]

/-- C5: the local operating-channel busy estimate equals
`clamp(round2(globalBusy * (1 + 0.4*localFactor + 0.6*neighborFactor)), 0, 100)`,
where the local factor is clamped to [-0.5, 5] (0 when no node is active on the
channel) and the neighbor factor is 0.15 per active spatial neighbor clamped to
[0, 2]. -/
theorem claim_C5_local_busy (states : List NodeState) (neighbors : List (List ℕ))
    (gbm : TxMap) (i : ℕ) :
    (compute_local_operating_busy_for_node states neighbors gbm i
      = clampQ (round2 (txGet gbm (states.getD (i - 1) default).channel
          * (1 + (2/5) * localFactorSpec states i
            + (3/5) * neighborFactorSpec states neighbors i))) 0 100)
    ∧ (activeTxs states (states.getD (i - 1) default).channel = []
        → localFactorSpec states i = 0)
    ∧ (-(1/2) ≤ localFactorSpec states i ∧ localFactorSpec states i ≤ 5)
    ∧ (neighborFactorSpec states neighbors i
        = min ((activeNeighborCount states neighbors
            (states.getD (i - 1) default).channel i : ℚ) * (15/100)) 2)
    ∧ (0 ≤ neighborFactorSpec states neighbors i
        ∧ neighborFactorSpec states neighbors i ≤ 2) := by
  refine ⟨?_, ?_, ?_, ?_, ?_⟩
  · simp only [compute_local_operating_busy_for_node, localFactorSpec,
      neighborFactorSpec, activeNeighborCount]
    rw [foldl_active states (states.getD (i - 1) default).channel 0 0]
    dsimp only
    simp only [zero_add]
    rw [lf_bridge (activeTxs states (states.getD (i - 1) default).channel)
      (activeTxs_pos states _)
      (txGet (states.getD (i - 1) default).per_channel_tx
        (states.getD (i - 1) default).channel)]
  · intro h
    simp only [localFactorSpec]
    rw [h]
    norm_num
  · simp only [localFactorSpec]
    split_ifs with h
    · norm_num
    · exact ⟨le_clampQ _ _ _, clampQ_le _ _ _ (by norm_num)⟩
  · unfold neighborFactorSpec clampQ
    rw [min_comm]
    exact max_eq_right (le_min (by positivity) (by norm_num))
  · exact ⟨le_clampQ _ _ _, clampQ_le _ _ _ (by norm_num)⟩

theorem claim_C5_witness :
    compute_local_operating_busy_for_node demoStates [[2], [1]] [(6, 50)] 1
      = clampQ (round2 (txGet [(6, 50)] (demoStates.getD 0 default).channel
          * (1 + (2/5) * localFactorSpec demoStates 1
            + (3/5) * neighborFactorSpec demoStates [[2], [1]] 1))) 0 100 :=
  (claim_C5_local_busy demoStates [[2], [1]] [(6, 50)] 1).1

/-- C8: after every `to_telemetry` call — for arbitrary random draws — the
node's rssi is in [-95, -30], its snr in [0, 60], its client count nonnegative,
and (given the caller-supplied operating busy and the previously stored smoothed
busy are in [0, 100]) both the stored smoothed busy and the emitted
channelBusyPercent are in [0, 100]; the emitted fields echo the stored ones. -/
theorem claim_C8_telemetry_bounds (st : NodeState) (lob : ℚ) (scan : List ScanEntry)
    (bf : ℚ) (d : TelemetryDraws)
    (hin : 0 ≤ lob ∧ lob ≤ 100)
    (hsm : 0 ≤ st.smoothed_busy ∧ st.smoothed_busy ≤ 100) :
    (-95 ≤ (to_telemetry st lob scan bf d).1.rssi
      ∧ (to_telemetry st lob scan bf d).1.rssi ≤ -30)
    ∧ (0 ≤ (to_telemetry st lob scan bf d).1.snr
      ∧ (to_telemetry st lob scan bf d).1.snr ≤ 60)
    ∧ 0 ≤ (to_telemetry st lob scan bf d).1.num_clients
    ∧ (0 ≤ (to_telemetry st lob scan bf d).1.smoothed_busy
      ∧ (to_telemetry st lob scan bf d).1.smoothed_busy ≤ 100)
    ∧ (0 ≤ (to_telemetry st lob scan bf d).2.channelBusyPercent
      ∧ (to_telemetry st lob scan bf d).2.channelBusyPercent ≤ 100)
    ∧ (to_telemetry st lob scan bf d).2.rssi = (to_telemetry st lob scan bf d).1.rssi
    ∧ (to_telemetry st lob scan bf d).2.snr = (to_telemetry st lob scan bf d).1.snr
    ∧ (to_telemetry st lob scan bf d).2.numClients
        = (to_telemetry st lob scan bf d).1.num_clients
    ∧ (to_telemetry st lob scan bf d).2.channel = st.channel := by
  obtain ⟨hin0, hin1⟩ := hin
  obtain ⟨hsm0, hsm1⟩ := hsm
  simp only [to_telemetry]
  refine ⟨⟨le_max_left _ _, max_le (by norm_num) (min_le_left _ _)⟩,
    ⟨le_max_left _ _, max_le (by norm_num) (min_le_left _ _)⟩,
    le_max_left _ _, ⟨by linarith, by linarith⟩,
    ⟨le_clampQ _ _ _, clampQ_le _ _ _ (by norm_num)⟩, by trivial, by trivial, by trivial,
    by trivial⟩

theorem claim_C8_witness :
    0 ≤ (to_telemetry demoNode1 50 [] 1
        { dRssi := 1, dSnr := -1, dCli := 0, gTx := 2, gRx := 3, retries := 7 }).1.smoothed_busy
      ∧ (to_telemetry demoNode1 50 [] 1
        { dRssi := 1, dSnr := -1, dCli := 0, gTx := 2, gRx := 3, retries := 7 }).1.smoothed_busy
        ≤ 100 :=
  (claim_C8_telemetry_bounds demoNode1 50 [] 1
    { dRssi := 1, dSnr := -1, dCli := 0, gTx := 2, gRx := 3, retries := 7 }
    ⟨by norm_num, by norm_num⟩
    ⟨by norm_num [demoNode1], by norm_num [demoNode1]⟩).2.2.2.1

theorem handle_record_fires (cfg : SimConfig) (states : List NodeState) (msg : CmdMsg)
    (r : ℚ) (s : String) (idx new_ch : ℤ)
    (hst : msg.status = none)
    (hid : pyOrStr msg.nodeId msg.key = some s)
    (hcmd : pyOrStr msg.command msg.type = some "SET_CHANNEL")
    (hparse : parse_node_index s = some idx)
    (hpay : parse_payload_channel msg.payload = some new_ch)
    (hrange : 1 ≤ idx ∧ idx ≤ (cfg.nodes : ℤ))
    (hne : (states.getD (idx.toNat - 1) default).channel ≠ new_ch)
    (hdelay : ¬0 < cfg.apply_delay) :
    consumer_handle_record cfg states msg r
      = .fired (apply_command_delayed cfg.apply_fail_rate states idx.toNat new_ch s r).1
          (apply_command_delayed cfg.apply_fail_rate states idx.toNat new_ch s r).2 := by
  unfold consumer_handle_record
  rw [hst, hid, hcmd]
  rw [if_neg (show ¬(none : Option PyVal).isSome = true from by simp)]
  dsimp only
  rw [if_neg (show ¬(some "SET_CHANNEL" ≠ some "SET_CHANNEL") from by simp)]
  rw [hparse]
  dsimp only
  rw [hpay]
  dsimp only
  rw [if_neg (not_not_intro hrange), if_neg hne, if_neg hdelay]

theorem handle_record_drops_of_no_parse (cfg : SimConfig) (states : List NodeState)
    (msg : CmdMsg) (r : ℚ) (s : String)
    (hst : msg.status = none)
    (hid : pyOrStr msg.nodeId msg.key = some s)
    (hcmd : pyOrStr msg.command msg.type = some "SET_CHANNEL")
    (hparse : parse_node_index s = none) :
    consumer_handle_record cfg states msg r = .dropped := by
  unfold consumer_handle_record
  rw [hst, hid, hcmd]
  rw [if_neg (show ¬(none : Option PyVal).isSome = true from by simp)]
  dsimp only
  rw [if_neg (show ¬(some "SET_CHANNEL" ≠ some "SET_CHANNEL") from by simp)]
  rw [hparse]

theorem apply_status_nodeId (f : ℚ) (states : List NodeState) (idx : ℕ) (ch : ℤ)
    (nodeId : String) (r : ℚ) :
    (apply_command_delayed f states idx ch nodeId r).2.nodeId = nodeId := by
  unfold apply_command_delayed
  split_ifs <;> rfl

theorem apply_success (f : ℚ) (states : List NodeState) (idx : ℕ) (ch : ℤ)
    (nodeId : String) (r : ℚ) (h : ¬r < f) :
    apply_command_delayed f states idx ch nodeId r
      = (states.set (idx - 1)
          { states.getD (idx - 1) default with channel := ch, per_channel_tx := [] },
         { nodeId := nodeId
           command := "SET_CHANNEL"
           payload := toString ch
           status := "APPLIED" }) := by
  unfold apply_command_delayed
  rw [if_neg h]

/-- C1: with apply_delay = 0 and apply_fail_rate = 0, a valid SET_CHANNEL
command fires immediately and emits exactly one APPLIED status message; the
target node's channel is set to the requested value with an emptied per-channel
activity accumulator, so its next telemetry sample reports the requested
channel. -/
theorem claim_C1_command_applied (cfg : SimConfig) (states : List NodeState) (msg : CmdMsg)
    (r : ℚ) (s : String) (idx new_ch : ℤ)
    (hst : msg.status = none)
    (hid : pyOrStr msg.nodeId msg.key = some s)
    (hcmd : pyOrStr msg.command msg.type = some "SET_CHANNEL")
    (hparse : parse_node_index s = some idx)
    (hpay : parse_payload_channel msg.payload = some new_ch)
    (hrange : 1 ≤ idx ∧ idx ≤ (cfg.nodes : ℤ))
    (hne : (states.getD (idx.toNat - 1) default).channel ≠ new_ch)
    (hdelay : cfg.apply_delay = 0)
    (hfail : cfg.apply_fail_rate = 0)
    (hr : 0 ≤ r) :
    consumer_handle_record cfg states msg r
      = .fired (states.set (idx.toNat - 1)
            { states.getD (idx.toNat - 1) default with
                channel := new_ch, per_channel_tx := [] })
          { nodeId := s
            command := "SET_CHANNEL"
            payload := toString new_ch
            status := "APPLIED" }
    ∧ ({ states.getD (idx.toNat - 1) default with
          channel := new_ch, per_channel_tx := [] } : NodeState).channel = new_ch
    ∧ ({ states.getD (idx.toNat - 1) default with
          channel := new_ch, per_channel_tx := [] } : NodeState).per_channel_tx = []
    ∧ (∀ (lob : ℚ) (scan : List ScanEntry) (bf : ℚ) (d : TelemetryDraws),
        (to_telemetry ({ states.getD (idx.toNat - 1) default with
            channel := new_ch, per_channel_tx := [] }) lob scan bf d).2.channel = new_ch) := by
  have hnr : ¬r < cfg.apply_fail_rate := by
    rw [hfail]
    exact not_lt.mpr hr
  have h1 := handle_record_fires cfg states msg r s idx new_ch hst hid hcmd hparse hpay
    hrange hne (by rw [hdelay]; norm_num)
  rw [apply_success _ _ _ _ _ _ hnr] at h1
  exact ⟨h1, rfl, rfl, fun lob scan bf d => rfl⟩

/-- C2: with apply_fail_rate = 1.0, every firing SET_CHANNEL application — for
every random draw of `random.random()` (always < 1) — publishes a FAILED status
and leaves the node list (hence the target node's channel) unchanged. -/
theorem claim_C2_fail_rate_one (states : List NodeState) (idx : ℕ) (new_ch : ℤ)
    (nodeId : String) (r : ℚ) (hr : r < 1) :
    apply_command_delayed 1 states idx new_ch nodeId r
      = (states,
         { nodeId := nodeId
           command := "SET_CHANNEL"
           payload := toString new_ch
           status := "FAILED" }) := by
  unfold apply_command_delayed
  rw [if_pos hr]

theorem claim_C2_witness :
    apply_command_delayed 1 states9 5 6 "node-005" (1/2)
      = (states9,
         { nodeId := "node-005"
           command := "SET_CHANNEL"
           payload := toString (6 : ℤ)
           status := "FAILED" }) :=
  claim_C2_fail_rate_one states9 5 6 "node-005" (1/2) (by norm_num)

theorem claim_C1_witness :
    consumer_handle_record cfg9 states9 msg9 (1/2)
      = .fired (states9.set ((5 : ℤ).toNat - 1)
            { states9.getD ((5 : ℤ).toNat - 1) default with
                channel := 6, per_channel_tx := [] })
          { nodeId := "node-5"
            command := "SET_CHANNEL"
            payload := toString (6 : ℤ)
            status := "APPLIED" } :=
  (claim_C1_command_applied cfg9 states9 msg9 (1/2) "node-5" 5 6 rfl (by decide) (by decide)
    (by decide) rfl ⟨by norm_num, by norm_num [cfg9]⟩
    (by
      have : (states9.getD ((5 : ℤ).toNat - 1) default).channel = 1 := by
        simp [states9, demoNode2, demoNode1]
      rw [this]
      norm_num)
    rfl rfl (by norm_num)).1

/-- C9: the command handler identifies the target node solely by the integer
suffix of a nodeId of the form "node-<suffix>": any accepted suffix parsing to
idx targets node idx (so "node-5" controls the node whose canonical id is
"node-005"); a nodeId not starting with "node-" or with a non-integer suffix is
silently dropped; and status messages echo the caller-supplied nodeId string. -/
theorem claim_C9_node_identification (cfg : SimConfig) (states : List NodeState)
    (msg : CmdMsg) (r : ℚ) (s : String) (new_ch : ℤ)
    (hst : msg.status = none)
    (hid : pyOrStr msg.nodeId msg.key = some s)
    (hcmd : pyOrStr msg.command msg.type = some "SET_CHANNEL")
    (hpay : parse_payload_channel msg.payload = some new_ch)
    (hdelay : ¬0 < cfg.apply_delay) :
    (∀ idx : ℤ, parse_node_index s = some idx
      → (1 ≤ idx ∧ idx ≤ (cfg.nodes : ℤ))
      → (states.getD (idx.toNat - 1) default).channel ≠ new_ch
      → consumer_handle_record cfg states msg r
          = .fired (apply_command_delayed cfg.apply_fail_rate states idx.toNat new_ch s r).1
              (apply_command_delayed cfg.apply_fail_rate states idx.toNat new_ch s r).2
        ∧ (apply_command_delayed cfg.apply_fail_rate states idx.toNat new_ch s r).2.nodeId = s
        ∧ (¬r < cfg.apply_fail_rate →
            (apply_command_delayed cfg.apply_fail_rate states idx.toNat new_ch s r).1
              = states.set (idx.toNat - 1)
                  { states.getD (idx.toNat - 1) default with
                      channel := new_ch, per_channel_tx := [] }))
    ∧ (¬s.data.take 5 = ['n', 'o', 'd', 'e', '-']
        → consumer_handle_record cfg states msg r = .dropped)
    ∧ (pyParseIntChars ((splitDash s.data).getLastD []) = none
        → consumer_handle_record cfg states msg r = .dropped)
    ∧ parse_node_index "node-5" = some 5
    ∧ nodeIdOf 5 = "node-005" := by
  refine ⟨?_, ?_, ?_, by decide, by decide⟩
  · intro idx hparse hrange hne
    refine ⟨handle_record_fires cfg states msg r s idx new_ch hst hid hcmd hparse hpay
        hrange hne hdelay,
      apply_status_nodeId _ _ _ _ _ _, ?_⟩
    intro hnr
    rw [apply_success _ _ _ _ _ _ hnr]
  · intro hns
    apply handle_record_drops_of_no_parse cfg states msg r s hst hid hcmd
    unfold parse_node_index
    rw [if_neg hns]
  · intro hsuf
    apply handle_record_drops_of_no_parse cfg states msg r s hst hid hcmd
    unfold parse_node_index
    by_cases hsw : s.data.take 5 = ['n', 'o', 'd', 'e', '-']
    · rw [if_pos hsw]
      exact hsuf
    · rw [if_neg hsw]

theorem claim_C9_witness :
    (consumer_handle_record cfg9 states9 msg9 (1/2)
      = .fired (apply_command_delayed cfg9.apply_fail_rate states9 (5 : ℤ).toNat 6 "node-5"
            (1/2)).1
          (apply_command_delayed cfg9.apply_fail_rate states9 (5 : ℤ).toNat 6 "node-5"
            (1/2)).2)
    ∧ (apply_command_delayed cfg9.apply_fail_rate states9 (5 : ℤ).toNat 6 "node-5"
        (1/2)).2.nodeId = "node-5" :=
  have h := (claim_C9_node_identification cfg9 states9 msg9 (1/2) "node-5" 6 rfl (by decide)
    (by decide) rfl (by norm_num [cfg9])).1 5 (by decide)
    ⟨by norm_num, by norm_num [cfg9]⟩
    (by
      have hch : (states9.getD ((5 : ℤ).toNat - 1) default).channel = 1 := by
        simp [states9, demoNode2, demoNode1]
      rw [hch]
      norm_num)
  ⟨h.1, h.2.1⟩

/-- C7: the propagation model clamps the distance to a 1-unit minimum, computes
`-40 - 10*3*log10(d)` plus the jitter draw, and returns the rounded value
clamped to [-95, -30]; in particular the result always lies in [-95, -30]. -/
theorem claim_C7_rssi_model (log10 : ℚ → ℚ) (dist_m jitter : ℚ) :
    (rssi_from_distance log10 dist_m jitter
      = max (-95) (min (-30)
          (pyRound ((-40) - 10 * 3 * log10 (max 1 dist_m) + jitter))))
    ∧ -95 ≤ rssi_from_distance log10 dist_m jitter
    ∧ rssi_from_distance log10 dist_m jitter ≤ -30 := by
  have hd : (if dist_m < 1 then (1 : ℚ) else dist_m) = max 1 dist_m := by
    rcases lt_or_le dist_m 1 with h | h
    · rw [if_pos h, max_eq_left (le_of_lt h)]
    · rw [if_neg (not_lt.mpr h), max_eq_right h]
  refine ⟨?_, ?_, ?_⟩
  · simp only [rssi_from_distance]
    rw [hd]
  · exact le_max_left _ _
  · exact max_le (by norm_num) (min_le_left _ _)

theorem claim_C7_witness :
    -95 ≤ rssi_from_distance (fun _ => 2) 100 0
      ∧ rssi_from_distance (fun _ => 2) 100 0 ≤ -30 :=
  ⟨(claim_C7_rssi_model (fun _ => 2) 100 0).2.1, (claim_C7_rssi_model (fun _ => 2) 100 0).2.2⟩

theorem mk_node_state_rng (channels : List ℤ) (area : ℚ) (n : ℕ) (s : ℕ → ℚ) (i : ℕ)
    (t : List DrawKind) :
    (mk_node_state channels area n ⟨s, i, t⟩).2 = ⟨s, i + 6, t ++ perNodeDraws⟩ := by
  simp [mk_node_state, py_choice, py_uniform, py_randint, py_gauss, RNG.next, perNodeDraws]

theorem mk_node_state_agree (channels : List ℤ) (area : ℚ) (n : ℕ) (s1 s2 : ℕ → ℚ)
    (i : ℕ) (t1 t2 : List DrawKind) (h : ∀ j, j < 6 → s1 (i + j) = s2 (i + j)) :
    (mk_node_state channels area n ⟨s1, i, t1⟩).1
      = (mk_node_state channels area n ⟨s2, i, t2⟩).1 := by
  have h0 : s1 i = s2 i := by simpa using h 0 (by omega)
  have h1 : s1 (i + 1) = s2 (i + 1) := by simpa using h 1 (by omega)
  have h2 : s1 (i + 1 + 1) = s2 (i + 1 + 1) := by
    have := h 2 (by omega)
    simpa [show i + 2 = i + 1 + 1 from by omega] using this
  have h3 : s1 (i + 1 + 1 + 1) = s2 (i + 1 + 1 + 1) := by
    have := h 3 (by omega)
    simpa [show i + 3 = i + 1 + 1 + 1 from by omega] using this
  have h4 : s1 (i + 1 + 1 + 1 + 1) = s2 (i + 1 + 1 + 1 + 1) := by
    have := h 4 (by omega)
    simpa [show i + 4 = i + 1 + 1 + 1 + 1 from by omega] using this
  have h5 : s1 (i + 1 + 1 + 1 + 1 + 1) = s2 (i + 1 + 1 + 1 + 1 + 1) := by
    have := h 5 (by omega)
    simpa [show i + 5 = i + 1 + 1 + 1 + 1 + 1 from by omega] using this
  simp [mk_node_state, py_choice, py_uniform, py_randint, py_gauss, RNG.next,
    h0, h1, h2, h3, h4, h5]

theorem init_states_rng (channels : List ℤ) (area : ℚ) (ns : List ℕ) (s : ℕ → ℚ) (i : ℕ)
    (t : List DrawKind) :
    (init_states channels area ns ⟨s, i, t⟩).2
      = ⟨s, i + 6 * ns.length, t ++ (List.replicate ns.length perNodeDraws).flatten⟩ := by
  induction ns generalizing i t with
  | nil => simp [init_states]
  | cons n ns ih =>
    show (init_states channels area ns (mk_node_state channels area n ⟨s, i, t⟩).2).2 = _
    rw [mk_node_state_rng, ih]
    simp only [List.length_cons]
    congr 1
    · omega
    · simp [List.replicate_succ, List.append_assoc]

theorem init_states_agree (channels : List ℤ) (area : ℚ) (ns : List ℕ) (s1 s2 : ℕ → ℚ)
    (i : ℕ) (t1 t2 : List DrawKind)
    (h : ∀ j, j < 6 * ns.length → s1 (i + j) = s2 (i + j)) :
    (init_states channels area ns ⟨s1, i, t1⟩).1
      = (init_states channels area ns ⟨s2, i, t2⟩).1 := by
  induction ns generalizing i t1 t2 with
  | nil => rfl
  | cons n ns ih =>
    show (mk_node_state channels area n ⟨s1, i, t1⟩).1
        :: (init_states channels area ns (mk_node_state channels area n ⟨s1, i, t1⟩).2).1
      = (mk_node_state channels area n ⟨s2, i, t2⟩).1
        :: (init_states channels area ns (mk_node_state channels area n ⟨s2, i, t2⟩).2).1
    have hlen : 6 * (n :: ns).length = 6 * ns.length + 6 := by
      simp [List.length_cons]
      omega
    rw [mk_node_state_agree channels area n s1 s2 i t1 t2
      (fun j hj => h j (by omega)),
      mk_node_state_rng, mk_node_state_rng]
    congr 1
    exact ih (i + 6) (t1 ++ perNodeDraws) (t2 ++ perNodeDraws)
      (fun j hj => by
        have := h (6 + j) (by omega)
        simpa [show i + (6 + j) = i + 6 + j from by omega] using this)

theorem py_sample_rng (k : DrawKind) (pool : List ℕ) (n : ℕ) (s : ℕ → ℚ) (i : ℕ)
    (t : List DrawKind) :
    (py_sample k pool n ⟨s, i, t⟩).2 = ⟨s, i + n, t ++ List.replicate n k⟩ := by
  induction n generalizing pool i t with
  | zero => simp [py_sample]
  | succ n ih =>
    simp only [py_sample, RNG.next]
    rw [ih]
    congr 1
    · omega
    · simp [List.replicate_succ, List.append_assoc]

theorem py_sample_agree (k : DrawKind) (pool : List ℕ) (n : ℕ) (s1 s2 : ℕ → ℚ) (i : ℕ)
    (t1 t2 : List DrawKind) (h : ∀ j, j < n → s1 (i + j) = s2 (i + j)) :
    (py_sample k pool n ⟨s1, i, t1⟩).1 = (py_sample k pool n ⟨s2, i, t2⟩).1 := by
  induction n generalizing pool i t1 t2 with
  | zero => rfl
  | succ n ih =>
    have h0 : s1 i = s2 i := by simpa using h 0 (by omega)
    simp only [py_sample, RNG.next]
    rw [h0]
    congr 1
    exact ih (pool.eraseIdx (⌊s2 i * pool.length⌋).toNat) (i + 1) (t1 ++ [k]) (t2 ++ [k])
      (fun j hj => by
        have := h (1 + j) (by omega)
        simpa [show i + (1 + j) = i + 1 + j from by omega] using this)

theorem init_topology_trace (cfg : SimConfig) (s : ℕ → ℚ) :
    (init_topology cfg (rng0 s)).2.trace = initDrawKinds cfg := by
  unfold init_topology rng0
  dsimp only
  rw [init_states_rng, py_sample_rng DrawKind.interfSample, py_sample_rng DrawKind.burstSample]
  simp [initDrawKinds, List.append_assoc]

theorem init_topology_det (cfg : SimConfig) (s1 s2 : ℕ → ℚ)
    (h : ∀ j, j < drawCount cfg → s1 j = s2 j) :
    (init_topology cfg (rng0 s1)).1 = (init_topology cfg (rng0 s2)).1 := by
  have hdc : drawCount cfg = 6 * cfg.nodes + kInterf cfg + kBurst cfg := rfl
  have hlen : (List.range' 1 cfg.nodes).length = cfg.nodes := by simp
  have hstates := init_states_agree cfg.channels cfg.area_size (List.range' 1 cfg.nodes)
    s1 s2 0 [] []
    (fun j hj => by
      have hj' : j < drawCount cfg := by
        rw [hlen] at hj
        omega
      simpa using h j hj')
  unfold init_topology rng0
  dsimp only
  rw [init_states_rng, init_states_rng, py_sample_rng DrawKind.interfSample,
    py_sample_rng DrawKind.interfSample, hstates]
  congr 1
  · exact py_sample_agree _ _ _ s1 s2 _ _ _
      (fun j hj => by
        apply h
        rw [hdc]
        rw [hlen]
        omega)
  · exact py_sample_agree _ _ _ s1 s2 _ _ _
      (fun j hj => by
        apply h
        rw [hdc]
        rw [hlen]
        omega)

/-- C3 (amended): for every fixed configuration, startup topology construction
is a function of a bounded window of the single seeded draw stream — two runs
whose streams agree on the consumed window produce identical node states
(positions and initial channels), interference/burst subsets and neighbor
lists — and the draws are consumed in the stable order `initDrawKinds`: for
each node in index order its channel choice, then its two position
coordinates, then its initial radio metrics; then interference subset
sampling, then burst subset sampling. The order asserted by the original
claim (all positions first, then all channels, then sampling) does not hold
of the source. -/
theorem claim_C3_topology_determinism (cfg : SimConfig) (s1 s2 s : ℕ → ℚ) :
    ((∀ j, j < drawCount cfg → s1 j = s2 j)
      → (init_topology cfg (rng0 s1)).1 = (init_topology cfg (rng0 s2)).1)
    ∧ (init_topology cfg (rng0 s)).2.trace = initDrawKinds cfg :=
  ⟨init_topology_det cfg s1 s2, init_topology_trace cfg s⟩

theorem claim_C3_counterexample :
    specDrawOrder ((init_topology cfgDemo (rng0 halfStream)).2.trace) = false := by
  rw [init_topology_trace]
  have hkI : kInterf cfgDemo = 1 := by
    norm_num [kInterf, pyTrunc, cfgDemo]
  have hkB : kBurst cfgDemo = 0 := by
    norm_num [kBurst, pyTrunc, cfgDemo]
  rw [show initDrawKinds cfgDemo
      = (List.replicate 2 perNodeDraws).flatten
        ++ List.replicate 1 DrawKind.interfSample
        ++ List.replicate 0 DrawKind.burstSample from by
    unfold initDrawKinds
    rw [hkI, hkB]
    rfl]
  decide

theorem claim_C3_witness :
    (init_topology cfgDemo (rng0 halfStream)).1
        = (init_topology cfgDemo (rng0 (fun j => if j < 13 then (1/2 : ℚ) else 0))).1
      ∧ (init_topology cfgDemo (rng0 halfStream)).2.trace = initDrawKinds cfgDemo :=
  ⟨(claim_C3_topology_determinism cfgDemo halfStream
      (fun j => if j < 13 then (1/2 : ℚ) else 0) halfStream).1
    (by
      intro j hj
      have hdc : drawCount cfgDemo = 13 := by
        norm_num [drawCount, kInterf, kBurst, pyTrunc, cfgDemo]
      rw [hdc] at hj
      simp [halfStream, hj]),
   (claim_C3_topology_determinism cfgDemo halfStream halfStream halfStream).2⟩
